import Mathlib

/-!
Verification of the pyobo core model and its lexical-grounding utilities.

The development shallowly embeds the Python sources:
  * `src/pyobo/gilda_utils.py` (identifier normalization, lexical index
    construction, grounder assembly),
  * `src/pyobo/struct/typedef.py` (the TypeDef vocabulary and the
    relation-hint resolution),
  * `src/pyobo/sources/mesh.py` (the MeSH adapter's term collection),
  * `src/pyobo/sources/dictybase_gene.py` (the dictyBase gene adapter).

Python strings are Lean `String`s, Python dicts are association lists in
insertion order (`alookup`/`aassign` below reproduce dict lookup and
`d[k] = v` assignment), Python exceptions are an explicit `Except` error
channel, and Python generators are fully materialized lists (the callers
under verification always materialize them with `list(...)` or by exhausting
the iterator).

Modules of the repository that the sources import but that are not part of
the embedded source set (`pyobo/struct/reference.py`, the `Term` builder in
`pyobo/struct/struct.py`, `pyobo/identifier_utils.py`, `pyobo/getters.py`,
`pyobo/utils/io.py`) are modelled from the specification; each such
definition carries a doc comment starting with "Modelled from the spec:".
Truly external collaborators (bioregistry, gilda's text normalization,
the per-namespace getter data) are parameters of the definitions.
-/

namespace PyObo

/-- The Python exceptions that the embedded code can raise.  `noBuild` is
`pyobo.getters.NoBuild` (the spec's `NamespaceUnavailableError`), `keyError`
is a dict lookup failure, `valueError`/`typeError` are the builtins raised in
`get_reference_tuple`, and `parseError` is the spec's `ParseError` for a
malformed curie. -/
inductive PyError where
  | noBuild (p : String)
  | keyError (key : String)
  | valueError (msg : String)
  | typeError (msg : String)
  | parseError (msg : String)
  deriving DecidableEq, Repr

/-- Association-list lookup with the semantics of a Python dict read
`m[k]` (returning `none` instead of raising; callers that raise `KeyError`
match on the `none` case explicitly). -/
def alookup {κ α : Type} [DecidableEq κ] : List (κ × α) → κ → Option α
  | [], _ => none
  | (k, v) :: t, k0 => if k = k0 then some v else alookup t k0

/-- Association-list assignment with the semantics of Python dict
assignment `m[k] = v`: an existing key keeps its position and gets the new
value, a fresh key is appended at the end (dicts preserve insertion
order). -/
def aassign {κ α : Type} [DecidableEq κ] (m : List (κ × α)) (k : κ) (v : α) :
    List (κ × α) :=
  if (alookup m k).isSome then
    m.map (fun kv => if kv.1 = k then (k, v) else kv)
  else
    m ++ [(k, v)]

/-- Keys of an association list, in order. -/
def akeys {κ α : Type} (m : List (κ × α)) : List κ := m.map (·.1)

theorem alookup_append_of_some {κ α : Type} [DecidableEq κ]
    {m : List (κ × α)} {k : κ} {v : α} (m' : List (κ × α))
    (h : alookup m k = some v) : alookup (m ++ m') k = some v := by
  induction m with
  | nil => simp [alookup] at h
  | cons kv t ih =>
    obtain ⟨k1, v1⟩ := kv
    by_cases hk : k1 = k
    · simp [alookup, hk] at h ⊢; exact h
    · simp [alookup, hk] at h ⊢; exact ih h

theorem alookup_isSome_iff_mem_akeys {κ α : Type} [DecidableEq κ]
    (m : List (κ × α)) (k : κ) : (alookup m k).isSome ↔ k ∈ akeys m := by
  induction m with
  | nil => simp [alookup, akeys]
  | cons kv t ih =>
    obtain ⟨k1, v1⟩ := kv
    by_cases hk : k1 = k
    · simp [alookup, hk, akeys]
    · simp [alookup, hk, akeys, Ne.symm hk] at ih ⊢; exact ih

theorem akeys_aassign_of_present {κ α : Type} [DecidableEq κ]
    {m : List (κ × α)} {k : κ} (v : α) (h : (alookup m k).isSome) :
    akeys (aassign m k v) = akeys m := by
  unfold aassign
  rw [if_pos h]
  unfold akeys
  rw [List.map_map]
  apply List.map_congr_left
  intro kv _
  by_cases hk : kv.1 = k <;> simp [hk]

theorem akeys_aassign_of_absent {κ α : Type} [DecidableEq κ]
    {m : List (κ × α)} {k : κ} (v : α) (h : (alookup m k).isSome = false) :
    akeys (aassign m k v) = akeys m ++ [k] := by
  unfold aassign
  rw [if_neg (by simp [h])]
  simp [akeys]

theorem mem_akeys_aassign {κ α : Type} [DecidableEq κ]
    (m : List (κ × α)) (k : κ) (v : α) : k ∈ akeys (aassign m k v) := by
  by_cases h : (alookup m k).isSome
  · rw [akeys_aassign_of_present v h]
    exact (alookup_isSome_iff_mem_akeys m k).mp h
  · rw [akeys_aassign_of_absent v (by simpa using h)]
    simp

theorem mem_akeys_aassign_of_mem {κ α : Type} [DecidableEq κ]
    {m : List (κ × α)} {k0 : κ} (k : κ) (v : α) (h : k0 ∈ akeys m) :
    k0 ∈ akeys (aassign m k v) := by
  by_cases hp : (alookup m k).isSome
  · rwa [akeys_aassign_of_present v hp]
  · rw [akeys_aassign_of_absent v (by simpa using hp)]
    exact List.mem_append_left _ h

theorem nodup_akeys_aassign {κ α : Type} [DecidableEq κ]
    {m : List (κ × α)} (k : κ) (v : α) (h : (akeys m).Nodup) :
    (akeys (aassign m k v)).Nodup := by
  by_cases hp : (alookup m k).isSome
  · rwa [akeys_aassign_of_present v hp]
  · rw [akeys_aassign_of_absent v (by simpa using hp)]
    have hk : k ∉ akeys m := fun hmem =>
      hp ((alookup_isSome_iff_mem_akeys m k).mpr hmem)
    simp [List.nodup_append, h, hk]

/-! ## `src/pyobo/gilda_utils.py` -/

/-- A `gilda.term.Term` record as constructed by `get_gilda_terms`:
`Term(norm_text=..., text=..., db=..., id=..., entry_name=..., status=...,
source=...)`.  `entry_name` is `Optional` because the identifier pass
constructs terms with `entry_name=None`. -/
structure GildaTerm where
  norm_text : String
  text : String
  db : String
  id : String
  entry_name : Option String
  status : String
  source : String
  deriving DecidableEq, Repr

/-- Modelled from the spec: the collaborator interfaces of section 6 that
`gilda_utils` consumes — `get_id_name_mapping`, `get_id_synonyms_mapping`
and `get_ids` from `pyobo` (which raise `NoBuild` when the namespace has no
build routine, section 7), and gilda's text-normalization routine
`normalize`.  Mappings are dict-items lists in iteration order. -/
structure Collab where
  get_id_name_mapping : String → Except PyError (List (String × String))
  get_id_synonyms_mapping : String → Except PyError (List (String × List String))
  get_ids : String → Except PyError (List String)
  normalize : String → String

/-- Python's `s.startswith(b)`: `b` is a literal prefix of `s`.  (Defined
over the character lists so that it is amenable to proof; Lean's built-in
`String.isPrefixOf` is byte-level and has no lemmas in this toolchain.) -/
def startswith (s b : String) : Bool := b.data.isPrefixOf s.data

/-- Python's `s.upper()`.  (Lean's `String.toUpper` is defined by
well-founded recursion over byte positions and does not reduce in the
kernel, so the character-list equivalent is used.) -/
def str_upper (s : String) : String := ⟨s.data.map Char.toUpper⟩

/-- Python's `s.lower()`, over character lists for the same reason. -/
def str_lower (s : String) : String := ⟨s.data.map Char.toLower⟩

/-- `normalize_identifier(prefix, identifier)` from `gilda_utils.py`,
parameterized by the external collaborators `bioregistry.get_banana` and
`bioregistry.namespace_in_lui`.  Python's `if banana:` truthiness test is
false both for `None` and for the empty string, hence the `isEmpty` split.
The first argument `p` is the namespace (the source calls that argument by
a name that is a Lean keyword). -/
def normalize_identifier (get_banana : String → Option String)
    (namespace_in_lui : String → Bool) (p identifier : String) : String :=
  match get_banana p with
  | some banana =>
    if banana.isEmpty then
      -- Python: a falsy banana falls through to the elif branch
      if namespace_in_lui p then
        let b := str_upper p ++ ":"
        if startswith identifier b then identifier else b ++ identifier
      else identifier
    else if startswith identifier banana then identifier
    else banana ++ ":" ++ identifier
  | none =>
    if namespace_in_lui p then
      let b := str_upper p ++ ":"
      if startswith identifier b then identifier else b ++ identifier
    else identifier

theorem startswith_append (b s : String) : startswith (b ++ s) b = true := by
  simp [startswith, List.isPrefixOf_iff_prefix, String.data_append]

theorem startswith_append_assoc (b c s : String) :
    startswith (b ++ c ++ s) b = true := by
  simp [startswith, List.isPrefixOf_iff_prefix, String.data_append,
    List.append_assoc]

/-- C4: `normalize_identifier` is idempotent — for every choice of the
bioregistry collaborators, every namespace `p` and every raw identifier `x`,
applying `normalize_identifier` twice yields the same string as applying it
once. -/
theorem claim_C4_normalize_identifier_idempotent (gb : String → Option String)
    (nsl : String → Bool) (p x : String) :
    normalize_identifier gb nsl p (normalize_identifier gb nsl p x) =
      normalize_identifier gb nsl p x := by
  cases hgb : gb p with
  | none =>
    by_cases hn : nsl p
    · by_cases hs : startswith x (str_upper p ++ ":")
      · simp [normalize_identifier, hgb, hn, hs]
      · simp [normalize_identifier, hgb, hn, hs, startswith_append]
    · simp [normalize_identifier, hgb, hn]
  | some banana =>
    by_cases he : banana.isEmpty
    · by_cases hn : nsl p
      · by_cases hs : startswith x (str_upper p ++ ":")
        · simp [normalize_identifier, hgb, he, hn, hs]
        · simp [normalize_identifier, hgb, he, hn, hs, startswith_append]
      · simp [normalize_identifier, hgb, he, hn]
    · by_cases hs : startswith x banana
      · simp [normalize_identifier, hgb, he, hs]
      · simp [normalize_identifier, hgb, he, hs, startswith_append_assoc]

/-- C5: for a namespace with a fixed (non-empty) banana `b`,
`normalize_identifier` prepends the banana pattern exactly when the raw
identifier does not already start with it and returns the identifier
unchanged otherwise; for a namespace without a banana whose identifiers
embed the namespace (`namespace_in_lui`), the fixed pattern is the
upper-cased namespace followed by a colon; for every other namespace the
identifier is returned unchanged.  The function is pure, so it has no side
effects by construction. -/
theorem claim_C5_normalize_identifier_banana (gb : String → Option String)
    (nsl : String → Bool) (p x : String) :
    (∀ b, gb p = some b → b.isEmpty = false →
      normalize_identifier gb nsl p x =
        if startswith x b then x else b ++ ":" ++ x)
    ∧ ((gb p = none ∨ gb p = some "") → nsl p = true →
      normalize_identifier gb nsl p x =
        if startswith x (str_upper p ++ ":") then x
        else (str_upper p ++ ":") ++ x)
    ∧ ((gb p = none ∨ gb p = some "") → nsl p = false →
      normalize_identifier gb nsl p x = x) := by
  have he : ("" : String).isEmpty = true := by decide
  refine ⟨?_, ?_, ?_⟩
  · intro b hb hne
    simp [normalize_identifier, hb, hne]
  · rintro (h | h) hn <;> simp [normalize_identifier, h, hn, he]
  · rintro (h | h) hn <;> simp [normalize_identifier, h, hn, he]

/-- Closed instance of C5 at concrete inputs: a banana namespace prepends
the banana, a namespace-in-LUI namespace prepends its upper-cased name with
a colon, and a plain namespace leaves the identifier unchanged. -/
theorem claim_C5_witness :
    normalize_identifier (fun _ => some "GO") (fun _ => false) "go" "0000001"
        = "GO:0000001"
    ∧ normalize_identifier (fun _ => none) (fun _ => true) "go" "0000001"
        = "GO:0000001"
    ∧ normalize_identifier (fun _ => none) (fun _ => false) "go" "0000001"
        = "0000001" := by
  refine ⟨?_, ?_, ?_⟩
  · have h := (claim_C5_normalize_identifier_banana
      (fun _ => some "GO") (fun _ => false) "go" "0000001").1 "GO" rfl (by decide)
    rw [h]; decide
  · have h := (claim_C5_normalize_identifier_banana
      (fun _ => none) (fun _ => true) "go" "0000001").2.1 (Or.inl rfl) rfl
    rw [h]; decide
  · have h := (claim_C5_normalize_identifier_banana
      (fun _ => none) (fun _ => false) "go" "0000001").2.2 (Or.inl rfl) rfl
    rw [h]

/-- The index entry built in the name pass of `get_gilda_terms`. -/
def mkNameTerm (col : Collab) (p identifier name : String) : GildaTerm :=
  { norm_text := col.normalize name, text := name, db := p, id := identifier,
    entry_name := some name, status := "name", source := p }

/-- The index entry built in the synonym pass of `get_gilda_terms`. -/
def mkSynTerm (col : Collab) (p identifier name synonym : String) : GildaTerm :=
  { norm_text := col.normalize synonym, text := synonym, db := p,
    id := identifier, entry_name := some name, status := "synonym",
    source := p }

/-- The index entry built in the identifier pass of `get_gilda_terms`. -/
def mkIdTerm (col : Collab) (p identifier : String) : GildaTerm :=
  { norm_text := col.normalize identifier, text := identifier, db := p,
    id := identifier, entry_name := none, status := "identifier", source := p }

/-- `get_gilda_terms(prefix, identifiers_are_names)` from `gilda_utils.py`,
fully materialized (its caller wraps the generator in `list(...)`).  The
name pass yields one "name" term per `id_to_name` item; the synonym pass
looks up `id_to_name[identifier]` — raising `KeyError` when the identifier
is absent — and yields one "synonym" term per synonym string; when
`identifiers_are_names` is set, a final pass yields one "identifier" term
per identifier of the namespace.
The synonym pass is the recursion `syn_groups`: for each item of the
synonyms mapping it performs the dict lookup `id_to_name[identifier]`
(raising `KeyError` on a missing key, which aborts the traversal exactly
where the Python generator would raise) and collects the per-identifier
synonym terms. -/
def syn_groups (col : Collab) (p : String)
    (id_to_name : List (String × String)) :
    List (String × List String) → Except PyError (List (List GildaTerm))
  | [] => Except.ok []
  | pr :: rest =>
    match alookup id_to_name pr.1 with
    | none => Except.error (PyError.keyError pr.1)
    | some name =>
      match syn_groups col p id_to_name rest with
      | Except.ok ls =>
          Except.ok (pr.2.map (fun s => mkSynTerm col p pr.1 name s) :: ls)
      | Except.error e => Except.error e

def get_gilda_terms (col : Collab) (p : String)
    (identifiers_are_names : Bool) : Except PyError (List GildaTerm) :=
  match col.get_id_name_mapping p with
  | Except.error e => Except.error e
  | Except.ok id_to_name =>
    match col.get_id_synonyms_mapping p with
    | Except.error e => Except.error e
    | Except.ok id_to_synonyms =>
      match syn_groups col p id_to_name id_to_synonyms with
      | Except.error e => Except.error e
      | Except.ok synGroups =>
        match (if identifiers_are_names then
            match col.get_ids p with
            | Except.error e => Except.error e
            | Except.ok ids => Except.ok (ids.map (fun i => mkIdTerm col p i))
          else Except.ok ([] : List GildaTerm)) with
        | Except.error e => Except.error e
        | Except.ok idTerms =>
          Except.ok (id_to_name.map (fun pr => mkNameTerm col p pr.1 pr.2)
            ++ synGroups.flatten ++ idTerms)

/-- The list that `get_gilda_terms` produces when all three collaborator
maps are available and every synonym identifier has a canonical name. -/
def gilda_terms_of (col : Collab) (p : String) (identifiers_are_names : Bool)
    (names : List (String × String)) (syns : List (String × List String))
    (ids : List String) : List GildaTerm :=
  names.map (fun pr => mkNameTerm col p pr.1 pr.2)
    ++ (syns.map (fun pr => pr.2.map
        (fun s => mkSynTerm col p pr.1 ((alookup names pr.1).getD "") s))).flatten
    ++ (if identifiers_are_names then ids.map (fun i => mkIdTerm col p i)
        else [])

theorem syn_groups_ok (col : Collab) (p : String)
    (names : List (String × String)) :
    ∀ (syns : List (String × List String)),
      (∀ pr ∈ syns, (alookup names pr.1).isSome) →
      syn_groups col p names syns
      = Except.ok (syns.map (fun pr => pr.2.map
          (fun s => mkSynTerm col p pr.1 ((alookup names pr.1).getD "") s)))
  | [], _ => rfl
  | pr :: syns, h => by
    have hhead : (alookup names pr.1).isSome := h pr (List.mem_cons_self pr syns)
    obtain ⟨v, hv⟩ := Option.isSome_iff_exists.mp hhead
    have htail := syn_groups_ok col p names syns
      (fun q hq => h q (List.mem_cons_of_mem pr hq))
    simp [syn_groups, hv, htail]

/-- `get_gilda_terms` evaluated under the preconditions: it returns exactly
the name entries, then the synonym entries, then (when the flag is set) the
identifier entries. -/
theorem gilda_terms_decompose (col : Collab) (p : String) (ian : Bool)
    (names : List (String × String)) (syns : List (String × List String))
    (ids : List String)
    (hn : col.get_id_name_mapping p = Except.ok names)
    (hs : col.get_id_synonyms_mapping p = Except.ok syns)
    (hi : col.get_ids p = Except.ok ids)
    (hk : ∀ pr ∈ syns, (alookup names pr.1).isSome) :
    get_gilda_terms col p ian = Except.ok (gilda_terms_of col p ian names syns ids) := by
  have hm := syn_groups_ok col p names syns hk
  cases ian <;>
    simp [get_gilda_terms, hn, hs, hi, hm, gilda_terms_of, Except.bind]

theorem mem_gilda_terms_of (col : Collab) (p : String) (ian : Bool)
    (names : List (String × String)) (syns : List (String × List String))
    (ids : List String) (t : GildaTerm)
    (ht : t ∈ gilda_terms_of col p ian names syns ids) :
    (∃ pr ∈ names, t = mkNameTerm col p pr.1 pr.2)
    ∨ (∃ pr ∈ syns, ∃ s ∈ pr.2,
        t = mkSynTerm col p pr.1 ((alookup names pr.1).getD "") s)
    ∨ (ian = true ∧ ∃ i ∈ ids, t = mkIdTerm col p i) := by
  unfold gilda_terms_of at ht
  rcases List.mem_append.mp ht with h | h
  · rcases List.mem_append.mp h with h | h
    · left
      obtain ⟨pr, hpr, rfl⟩ := List.mem_map.mp h
      exact ⟨pr, hpr, rfl⟩
    · right; left
      obtain ⟨l, hl, htl⟩ := List.mem_flatten.mp h
      obtain ⟨pr, hpr, rfl⟩ := List.mem_map.mp hl
      obtain ⟨s, hsm, rfl⟩ := List.mem_map.mp htl
      exact ⟨pr, hpr, s, hsm, rfl⟩
  · right; right
    cases ian with
    | false => simp at h
    | true =>
      simp only [if_pos rfl] at h
      obtain ⟨i, hi, rfl⟩ := List.mem_map.mp h
      exact ⟨rfl, i, hi, rfl⟩

/-- C6: for every namespace, the term generator yields exactly one "name"
entry per item of the identifier-to-name mapping, exactly one "synonym"
entry per (synonym, identifier) pair of the identifier-to-synonyms mapping,
and — only when `identifiers_are_names` is set — one "identifier" entry per
bare identifier; every produced entry has a status among
name/synonym/identifier and its normalized text is the shared
normalization routine applied to its text. -/
theorem claim_C6_get_gilda_terms_shape (col : Collab) (p : String)
    (ian : Bool) (names : List (String × String))
    (syns : List (String × List String)) (ids : List String)
    (hn : col.get_id_name_mapping p = Except.ok names)
    (hs : col.get_id_synonyms_mapping p = Except.ok syns)
    (hi : col.get_ids p = Except.ok ids)
    (hk : ∀ pr ∈ syns, (alookup names pr.1).isSome) :
    get_gilda_terms col p ian
        = Except.ok (gilda_terms_of col p ian names syns ids)
    ∧ (gilda_terms_of col p ian names syns ids).filter
          (fun t => t.status == "name")
        = names.map (fun pr => mkNameTerm col p pr.1 pr.2)
    ∧ (gilda_terms_of col p ian names syns ids).filter
          (fun t => t.status == "synonym")
        = (syns.map (fun pr => pr.2.map
            (fun s => mkSynTerm col p pr.1 ((alookup names pr.1).getD "") s))).flatten
    ∧ (gilda_terms_of col p ian names syns ids).filter
          (fun t => t.status == "identifier")
        = (if ian then ids.map (fun i => mkIdTerm col p i) else [])
    ∧ ∀ t ∈ gilda_terms_of col p ian names syns ids,
        (t.status = "name" ∨ t.status = "synonym" ∨ t.status = "identifier")
        ∧ t.norm_text = col.normalize t.text := by
  have hjoin : ∀ t ∈ (syns.map (fun pr => pr.2.map
      (fun s => mkSynTerm col p pr.1 ((alookup names pr.1).getD "") s))).flatten,
      t.status = "synonym" := by
    intro t ht
    obtain ⟨l, hl, htl⟩ := List.mem_flatten.mp ht
    obtain ⟨pr, _, rfl⟩ := List.mem_map.mp hl
    obtain ⟨s, _, rfl⟩ := List.mem_map.mp htl
    rfl
  have hids : ∀ t ∈ (if ian then ids.map (fun i => mkIdTerm col p i)
      else ([] : List GildaTerm)), t.status = "identifier" := by
    cases ian with
    | false => simp
    | true =>
      intro t ht
      simp only [if_pos rfl] at ht
      obtain ⟨i, _, rfl⟩ := List.mem_map.mp ht
      rfl
  refine ⟨gilda_terms_decompose col p ian names syns ids hn hs hi hk, ?_, ?_, ?_, ?_⟩
  · unfold gilda_terms_of
    rw [List.filter_append, List.filter_append]
    rw [List.filter_eq_self.mpr (by
      intro t ht
      obtain ⟨pr, _, rfl⟩ := List.mem_map.mp ht
      rfl)]
    rw [List.filter_eq_nil_iff.mpr (by
      intro t ht
      have := hjoin t ht
      simp [this])]
    rw [List.filter_eq_nil_iff.mpr (by
      intro t ht
      have := hids t ht
      simp [this])]
    simp
  · unfold gilda_terms_of
    rw [List.filter_append, List.filter_append]
    rw [List.filter_eq_nil_iff.mpr (by
      intro t ht
      obtain ⟨pr, _, rfl⟩ := List.mem_map.mp ht
      simp [mkNameTerm])]
    rw [List.filter_eq_self.mpr (by
      intro t ht
      have := hjoin t ht
      simp [this])]
    rw [List.filter_eq_nil_iff.mpr (by
      intro t ht
      have := hids t ht
      simp [this])]
    simp
  · unfold gilda_terms_of
    rw [List.filter_append, List.filter_append]
    rw [List.filter_eq_nil_iff.mpr (by
      intro t ht
      obtain ⟨pr, _, rfl⟩ := List.mem_map.mp ht
      simp [mkNameTerm])]
    rw [List.filter_eq_nil_iff.mpr (by
      intro t ht
      have := hjoin t ht
      simp [this])]
    rw [List.filter_eq_self.mpr (by
      intro t ht
      have := hids t ht
      simp [this])]
    simp
  · intro t ht
    rcases mem_gilda_terms_of col p ian names syns ids t ht with
      ⟨pr, _, rfl⟩ | ⟨pr, _, s, _, rfl⟩ | ⟨_, i, _, rfl⟩
    · exact ⟨Or.inl rfl, rfl⟩
    · exact ⟨Or.inr (Or.inl rfl), rfl⟩
    · exact ⟨Or.inr (Or.inr rfl), rfl⟩

/-- A concrete collaborator with one name, one synonym and no bare
identifiers, used to instantiate the index-construction claims. -/
def colGood : Collab :=
  { get_id_name_mapping := fun _ => Except.ok [("1", "Foo")],
    get_id_synonyms_mapping := fun _ => Except.ok [("1", ["F protein"])],
    get_ids := fun _ => Except.ok [],
    normalize := str_lower }

/-- Closed instance of C6: on a namespace with one name and one synonym
(flag set), the generator produces exactly the decomposed list. -/
theorem claim_C6_witness :
    get_gilda_terms colGood "demo" true
      = Except.ok (gilda_terms_of colGood "demo" true [("1", "Foo")]
          [("1", ["F protein"])] []) :=
  (claim_C6_get_gilda_terms_shape colGood "demo" true [("1", "Foo")]
    [("1", ["F protein"])] [] rfl rfl rfl (by decide)).1

/-- A collaborator whose synonyms mapping has an identifier ("j") that the
name mapping lacks. -/
def colBad : Collab :=
  { get_id_name_mapping := fun _ => Except.ok [("a", "A")],
    get_id_synonyms_mapping := fun _ => Except.ok [("j", ["syn"])],
    get_ids := fun _ => Except.ok [],
    normalize := id }

/-- C9: `get_gilda_terms` requires every key of the synonyms mapping to be
a key of the name mapping.  Under that precondition the synonym pass never
fails and every synonym entry's `entry_name` is the identifier's canonical
name; for an identifier present only in the synonyms mapping the generator
raises a `KeyError` instead of yielding. -/
theorem claim_C9_synonym_pass_precondition :
    (∀ (col : Collab) (p : String) (ian : Bool)
      (names : List (String × String)) (syns : List (String × List String))
      (ids : List String),
      col.get_id_name_mapping p = Except.ok names →
      col.get_id_synonyms_mapping p = Except.ok syns →
      col.get_ids p = Except.ok ids →
      (∀ pr ∈ syns, (alookup names pr.1).isSome) →
      get_gilda_terms col p ian
          = Except.ok (gilda_terms_of col p ian names syns ids)
      ∧ ∀ t ∈ gilda_terms_of col p ian names syns ids, t.status = "synonym" →
          ∃ n, alookup names t.id = some n ∧ t.entry_name = some n)
    ∧ get_gilda_terms colBad "x" false
        = Except.error (PyError.keyError "j") := by
  constructor
  · intro col p ian names syns ids hn hs hi hk
    refine ⟨gilda_terms_decompose col p ian names syns ids hn hs hi hk, ?_⟩
    intro t ht hstat
    rcases mem_gilda_terms_of col p ian names syns ids t ht with
      ⟨pr, _, rfl⟩ | ⟨pr, hpr, s, _, rfl⟩ | ⟨_, i, _, rfl⟩
    · exact absurd hstat (by simp [mkNameTerm])
    · obtain ⟨v, hv⟩ := Option.isSome_iff_exists.mp (hk pr hpr)
      exact ⟨v, by simpa [mkSynTerm] using hv, by simp [mkSynTerm, hv]⟩
    · exact absurd hstat (by simp [mkIdTerm])
  · rfl

/-- Closed instance of C9's first component at a collaborator that
satisfies the precondition. -/
theorem claim_C9_witness :
    get_gilda_terms colGood "x" false
      = Except.ok (gilda_terms_of colGood "x" false [("1", "Foo")]
          [("1", ["F protein"])] []) :=
  (claim_C9_synonym_pass_precondition.1 colGood "x" false [("1", "Foo")]
    [("1", ["F protein"])] [] rfl rfl rfl (by decide)).1

/-- Modelled from the spec: gilda's `filter_out_duplicates` — "duplicates
(same normalized text AND same (prefix,identifier) AND same status) are
filtered out" (section 4.3); the first occurrence is kept. -/
def filter_out_duplicates (ts : List GildaTerm) : List GildaTerm :=
  ts.foldl (fun acc t =>
    if acc.any (fun u => u.norm_text == t.norm_text && u.db == t.db
        && u.id == t.id && u.status == t.status)
    then acc else acc ++ [t]) []

/-- Modelled from the spec: `multidict` from `pyobo/utils/io.py` groups a
sequence of key-value pairs into a mapping from key to the ordered list of
values ("the index is a mapping from normalized-text to an ordered sequence
of index entries", section 4.3). -/
def multidict (pairs : List (String × GildaTerm)) :
    List (String × List GildaTerm) :=
  pairs.foldl (fun m pr =>
    match alookup m pr.1 with
    | some vs => aassign m pr.1 (vs ++ [pr.2])
    | none => m ++ [(pr.1, [pr.2])]) []

/-- The part of a `gilda.grounder.Grounder` that `get_grounder`
determines: the index mapping each normalized text to its entries. -/
structure Grounder where
  entries : List (String × List GildaTerm)
  deriving DecidableEq, Repr

/-- The namespace loop of `get_grounder`, with its per-namespace
`except NoBuild: continue` handler: a namespace whose build raises
`NoBuild` is skipped, any other exception propagates, and the terms of the
successful namespaces are accumulated in request order. -/
def collect_terms (col : Collab) (unnamed : List String) :
    List String → Except PyError (List GildaTerm)
  | [] => Except.ok []
  | p :: ps =>
    match get_gilda_terms col p (unnamed.contains p) with
    | Except.error (PyError.noBuild _) => collect_terms col unnamed ps
    | Except.error e => Except.error e
    | Except.ok ts =>
      match collect_terms col unnamed ps with
      | Except.ok rest => Except.ok (ts ++ rest)
      | Except.error e => Except.error e

/-- `get_grounder(prefix, unnamed)` from `gilda_utils.py`.  The
`Union[str, Iterable[str]]` first argument is wrapped into a one-element
list by the source before the loop, so the embedding takes the list
directly; `unnamed` is the set of namespaces whose identifiers are
names. -/
def get_grounder (col : Collab) (prefixes unnamed : List String) :
    Except PyError Grounder :=
  match collect_terms col unnamed prefixes with
  | Except.error e => Except.error e
  | Except.ok terms =>
    Except.ok (Grounder.mk (multidict
      ((filter_out_duplicates terms).map (fun t => (t.norm_text, t)))))

/-- The entries of the namespaces that build successfully, in request
order: the specification-side characterization used by C1. -/
def success_terms (col : Collab) (unnamed prefixes : List String) :
    List GildaTerm :=
  (prefixes.map (fun p =>
    ((get_gilda_terms col p (unnamed.contains p)).toOption).getD [])).flatten

theorem collect_terms_ok (col : Collab) (unnamed : List String) :
    ∀ prefixes : List String,
      (∀ p ∈ prefixes, ∀ e,
        get_gilda_terms col p (unnamed.contains p) = Except.error e →
        ∃ s, e = PyError.noBuild s) →
      collect_terms col unnamed prefixes
        = Except.ok (success_terms col unnamed prefixes)
  | [], _ => rfl
  | p :: ps, h => by
    have htail := collect_terms_ok col unnamed ps
      (fun q hq => h q (List.mem_cons_of_mem p hq))
    have hsucc : success_terms col unnamed (p :: ps)
        = ((get_gilda_terms col p (unnamed.contains p)).toOption).getD []
          ++ success_terms col unnamed ps := by
      unfold success_terms
      rw [List.map_cons, List.flatten_cons]
    cases hg : get_gilda_terms col p (unnamed.contains p) with
    | error e =>
      obtain ⟨s, rfl⟩ := h p (List.mem_cons_self p ps) e hg
      unfold collect_terms
      rw [hg]
      show collect_terms col unnamed ps = _
      rw [htail, hsucc, hg]
      rfl
    | ok ts =>
      unfold collect_terms
      rw [hg]
      show (match collect_terms col unnamed ps with
        | Except.ok rest => Except.ok (ts ++ rest)
        | Except.error e => Except.error e) = _
      rw [htail, hsucc, hg]
      rfl

/-- C1: the index builder catches `NoBuild` per namespace and continues, so
when every per-namespace failure is a `NoBuild` the build succeeds and the
resulting index is built from exactly the entries of the namespaces that
built successfully; when every requested namespace is unavailable the
final term set is left empty (and the grounder is built over an empty
index). -/
theorem claim_C1_get_grounder_skips_unavailable (col : Collab)
    (prefixes unnamed : List String)
    (h : ∀ p ∈ prefixes, ∀ e,
      get_gilda_terms col p (unnamed.contains p) = Except.error e →
      ∃ s, e = PyError.noBuild s) :
    get_grounder col prefixes unnamed
      = Except.ok (Grounder.mk (multidict
          ((filter_out_duplicates (success_terms col unnamed prefixes)).map
            (fun t => (t.norm_text, t)))))
    ∧ ((∀ p ∈ prefixes, ∃ s, get_gilda_terms col p (unnamed.contains p)
          = Except.error (PyError.noBuild s)) →
        success_terms col unnamed prefixes = []
        ∧ get_grounder col prefixes unnamed = Except.ok (Grounder.mk [])) := by
  have hc := collect_terms_ok col unnamed prefixes h
  constructor
  · unfold get_grounder
    rw [hc]
  · intro hall
    have hempty : success_terms col unnamed prefixes = [] := by
      unfold success_terms
      rw [List.flatten_eq_nil_iff]
      intro l hl
      obtain ⟨p, hp, rfl⟩ := List.mem_map.mp hl
      obtain ⟨s, hs⟩ := hall p hp
      show (get_gilda_terms col p (unnamed.contains p)).toOption.getD [] = []
      rw [hs]
      rfl
    refine ⟨hempty, ?_⟩
    unfold get_grounder
    rw [hc, hempty]
    rfl

/-- A concrete collaborator for which namespace "a" builds (one name, no
synonyms) and every other namespace raises `NoBuild`. -/
def colPartial : Collab :=
  { get_id_name_mapping := fun p =>
      if p = "a" then Except.ok [("1", "Foo")]
      else Except.error (PyError.noBuild p),
    get_id_synonyms_mapping := fun p =>
      if p = "a" then Except.ok [] else Except.error (PyError.noBuild p),
    get_ids := fun _ => Except.ok [],
    normalize := str_lower }

/-- Closed instance of C1: with namespaces `["a", "b"]` where "b" raises
`NoBuild`, the build succeeds and the index holds exactly the entries of
"a". -/
theorem claim_C1_witness :
    get_grounder colPartial ["a", "b"] []
      = Except.ok (Grounder.mk (multidict
          ((filter_out_duplicates (success_terms colPartial [] ["a", "b"])).map
            (fun t => (t.norm_text, t))))) := by
  refine (claim_C1_get_grounder_skips_unavailable colPartial ["a", "b"] [] ?_).1
  intro p hp e hg
  simp only [List.mem_cons, List.not_mem_nil, or_false] at hp
  rcases hp with rfl | rfl
  · rw [show get_gilda_terms colPartial "a" (List.contains [] "a")
        = Except.ok [mkNameTerm colPartial "a" "1" "Foo"] from rfl] at hg
    exact absurd hg (by simp)
  · rw [show get_gilda_terms colPartial "b" (List.contains [] "b")
        = Except.error (PyError.noBuild "b") from rfl] at hg
    injection hg with h1
    exact ⟨"b", h1.symm⟩

/-! ## `src/pyobo/struct/typedef.py`

The source's four `*_PREFIX` string constants ("RO", "BFO", "IAO", "SIO")
are inlined at their use sites. -/

/-- Modelled from the spec: `Reference` (section 3) from the module
`pyobo/struct/reference.py`, which is not part of the embedded source set —
an immutable (prefix, identifier, optional name) triple whose identity is
the `(prefix, identifier)` pair; `name` is denormalized display data.  The
field `pfx` embeds the source field whose name is a Lean keyword. -/
structure Reference where
  pfx : String
  identifier : String
  name : Option String := none
  deriving DecidableEq, Repr

/-- The `(prefix, identifier)` identity key of a Reference (section 3). -/
def Reference.pair (r : Reference) : String × String := (r.pfx, r.identifier)

/-- Modelled from the spec: `Reference.default(identifier, name)` — the
default-prefix convenience constructor used by several built-in typedefs.
The spec does not fix the default prefix string; `"obo"` is used, and the
claims below depend only on it being distinct from the other built-in
prefixes. -/
def Reference.default (identifier : String) (name : Option String := none) :
    Reference :=
  { pfx := "obo", identifier := identifier, name := name }

/-- Modelled from the spec: `Reference.auto(prefix, identifier)` — a
constructor that additionally fetches the display name from an external
service; the name never participates in identity (section 3), so it is
modelled as absent. -/
def Reference.auto (pfx identifier : String) : Reference :=
  { pfx := pfx, identifier := identifier, name := none }

/-- `TypeDef` from `typedef.py`: a dataclass over a `Reference` plus the
optional relation metadata.  The field `ns` embeds the source field
`namespace`, a Lean keyword. -/
structure TypeDef where
  reference : Reference
  comment : Option String := none
  ns : Option String := none
  definition : Option String := none
  is_transitive : Option Bool := none
  is_symmetric : Option Bool := none
  domain : Option Reference := none
  range : Option Reference := none
  parents : List Reference := []
  xrefs : List Reference := []
  inverse : Option Reference := none
  deriving DecidableEq, Repr

/-- The `prefix` property a TypeDef inherits from `Referenced`. -/
def TypeDef.pfx (t : TypeDef) : String := t.reference.pfx

/-- The `identifier` property a TypeDef inherits from `Referenced`. -/
def TypeDef.identifier (t : TypeDef) : String := t.reference.identifier

/-- The `pair` property a TypeDef inherits from `Referenced`. -/
def TypeDef.pair (t : TypeDef) : String × String :=
  (t.reference.pfx, t.reference.identifier)

/-- `TypeDef.from_triple(prefix, identifier, name)` from `typedef.py`. -/
def TypeDef.from_triple (pfx identifier : String)
    (name : Option String := none) : TypeDef :=
  { reference := { pfx := pfx, identifier := identifier, name := name } }

/-- Python's `s.split(sep, 1)` on character lists: `none` when the
separator does not occur (where the Python two-target unpacking raises),
otherwise the text before and after the first occurrence. -/
def split_first (sep : Char) : List Char → Option (List Char × List Char)
  | [] => none
  | c :: rest =>
    if c = sep then some ([], rest)
    else (split_first sep rest).map (fun pr => (c :: pr.1, pr.2))

/-- Modelled from the spec: `normalize_curie` from the module
`pyobo/identifier_utils.py`, which is not part of the embedded source set
(sections 4.1, 6, 8): split the string at the first colon, lower-case the
prefix (the section 8 round-trip sends `prefix:identifier` to
`(prefix.lower(), identifier)`), validate the prefix against the known
namespace registry `reg`, and fail with the spec's `ParseError` — surfaced
to the caller, section 7 — when the string does not split into a valid
pair. -/
def normalize_curie (reg : String → Bool) (curie : String) :
    Except PyError (String × String) :=
  match split_first ':' curie.data with
  | none => Except.error (PyError.parseError curie)
  | some (pre, post) =>
    let p := str_lower (String.mk pre)
    if reg p then Except.ok (p, String.mk post)
    else Except.error (PyError.parseError curie)

/-- `TypeDef.from_curie(curie, name)` from `typedef.py`: delegates to
`normalize_curie` and builds the typedef with `from_triple`.  The
constructor installs no handler, so the collaborator's failure propagates
to the caller. -/
def TypeDef.from_curie (reg : String → Bool) (curie : String)
    (name : Option String := none) : Except PyError TypeDef :=
  match normalize_curie reg curie with
  | Except.error e => Except.error e
  | Except.ok (p, identifier) =>
      Except.ok (TypeDef.from_triple p identifier name)

/-- `RelationHint = Union[Reference, TypeDef, Tuple[str, str], str]` from
`typedef.py`, as a tagged union. -/
inductive RelationHint where
  | ref (r : Reference)
  | typedef (t : TypeDef)
  | pair (pr : String × String)
  | curie (s : String)

/-- `get_reference_tuple(relation)` from `typedef.py`.  A `Reference` or
`TypeDef` yields its own (prefix, identifier); a tuple is returned
verbatim; a string goes through `normalize_curie`.  The source's
`if prefix is None: raise ValueError(...)` guard on the string branch is
unreachable under the spec-modelled `normalize_curie`, whose failure
channel is the raised `ParseError`; the `TypeError` branch for any other
input type cannot arise in the typed embedding. -/
def get_reference_tuple (reg : String → Bool) :
    RelationHint → Except PyError (String × String)
  | RelationHint.ref r => Except.ok (r.pfx, r.identifier)
  | RelationHint.typedef t => Except.ok (t.pfx, t.identifier)
  | RelationHint.pair pr => Except.ok pr
  | RelationHint.curie s => normalize_curie reg s

/-- C2: `TypeDef.from_curie` fails by propagating the collaborator's
`ParseError` — surfaced unchanged to the caller, never dropped — exactly
when the input does not normalize, and for every input that normalizes to
`(p, i)` it returns a TypeDef whose reference carries that normalized
prefix and identifier. -/
theorem claim_C2_from_curie_parse_error (reg : String → Bool)
    (curie : String) (name : Option String) :
    (∀ e, normalize_curie reg curie = Except.error e →
      TypeDef.from_curie reg curie name = Except.error e
      ∧ ∃ m, e = PyError.parseError m)
    ∧ (∀ p i, normalize_curie reg curie = Except.ok (p, i) →
      TypeDef.from_curie reg curie name
          = Except.ok (TypeDef.from_triple p i name)
      ∧ (TypeDef.from_triple p i name).reference.pfx = p
      ∧ (TypeDef.from_triple p i name).reference.identifier = i) := by
  constructor
  · intro e he
    refine ⟨by rw [TypeDef.from_curie, he], ?_⟩
    unfold normalize_curie at he
    cases hsp : split_first ':' curie.data with
    | none =>
      rw [hsp] at he
      exact ⟨curie, (Except.error.injEq _ _).mp he |>.symm⟩
    | some pr =>
      rw [hsp] at he
      by_cases hreg : reg (str_lower (String.mk pr.1))
      · simp [hreg] at he
      · simp [hreg] at he
        exact ⟨curie, he.symm⟩
  · intro p i hok
    exact ⟨by rw [TypeDef.from_curie, hok], rfl, rfl⟩

/-- Closed instance of C2: a valid curie produces the normalized typedef
and a string without a colon produces the surfaced `ParseError`. -/
theorem claim_C2_witness :
    (TypeDef.from_curie (fun s => s == "go") "GO:0000001" none
        = Except.ok (TypeDef.from_triple "go" "0000001" none)
      ∧ (TypeDef.from_triple "go" "0000001" (none : Option String)).reference.pfx
          = "go"
      ∧ (TypeDef.from_triple "go" "0000001"
          (none : Option String)).reference.identifier = "0000001")
    ∧ (TypeDef.from_curie (fun s => s == "go") "nocolon" none
        = Except.error (PyError.parseError "nocolon")) := by
  constructor
  · exact (claim_C2_from_curie_parse_error (fun s => s == "go") "GO:0000001"
      none).2 "go" "0000001" rfl
  · exact ((claim_C2_from_curie_parse_error (fun s => s == "go") "nocolon"
      none).1 (PyError.parseError "nocolon") rfl).1

/-- `from_species` (RO:0002162 "in taxon"). -/
def from_species : TypeDef :=
  { reference := { pfx := "RO", identifier := "0002162", name := some "in taxon" } }

/-- `species_specific`; the source's implicitly-concatenated definition
string literals are kept verbatim (including the missing space of
"whichspecies"). -/
def species_specific : TypeDef :=
  { reference := Reference.default "speciesSpecific" (some "Species Specific"),
    definition := some ("X speciesSpecific Y means that Y is a general phenomena, "
      ++ "like a pathway, and X is the version that appears in a species. X should state which"
      ++ "species with RO:0002162 (in taxon)") }

/-- `part_of` (BFO:0000050). -/
def part_of : TypeDef :=
  { reference := { pfx := "BFO", identifier := "0000050", name := some "part of" },
    comment := some "Inverse of has_part",
    inverse := some { pfx := "BFO", identifier := "0000051", name := some "has part" } }

/-- `has_part` (BFO:0000051). -/
def has_part : TypeDef :=
  { reference := { pfx := "BFO", identifier := "0000051", name := some "has part" },
    comment := some "Inverse of part_of",
    inverse := some { pfx := "BFO", identifier := "0000050", name := some "part of" } }

/-- `is_a` (rdfs:subClassOf). -/
def is_a : TypeDef :=
  { reference := { pfx := "rdfs", identifier := "subClassOf", name := some "subclass of" } }

/-- `has_member` (RO:0002351). -/
def has_member : TypeDef :=
  { reference := { pfx := "RO", identifier := "0002351", name := some "has member" } }

/-- `member_of` (RO:0002350). -/
def member_of : TypeDef :=
  { reference := { pfx := "RO", identifier := "0002350", name := some "member of" },
    inverse := some has_member.reference }

/-- `superclass_of` (sssom:superClassOf). -/
def superclass_of : TypeDef :=
  { reference := { pfx := "sssom", identifier := "superClassOf", name := some "super class of" },
    comment := some "Inverse of subClassOf",
    inverse := some is_a.reference }

/-- `develops_from` (RO:0002202). -/
def develops_from : TypeDef :=
  TypeDef.from_triple "RO" "0002202" (some "develops from")

/-- `orthologous` (RO:HOM0000017), symmetric. -/
def orthologous : TypeDef :=
  { reference :=
      Reference.mk "RO" "HOM0000017" (some "in orthology relationship with"),
    is_symmetric := some true }

/-- `has_role` (RO:0000087). -/
def has_role : TypeDef :=
  { reference := { pfx := "RO", identifier := "0000087", name := some "has role" },
    definition := some ("a relation between an independent continuant (the bearer) and a role,"
      ++ " in which the role specifically depends on the bearer for its existence"),
    domain := some { pfx := "BFO", identifier := "0000004", name := some "independent continuant" },
    range := some { pfx := "BFO", identifier := "0000023", name := some "role" },
    parents := [{ pfx := "RO", identifier := "0000053", name := some "bearer of" }],
    inverse := some { pfx := "RO", identifier := "0000081", name := some "role of" } }

/-- `role_of` (RO:0000081). -/
def role_of : TypeDef :=
  { reference := { pfx := "RO", identifier := "0000081", name := some "role of" },
    definition := some ("a relation between a role and an independent continuant (the bearer),"
      ++ " in which the role specifically depends on the bearer for its existence"),
    parents := [{ pfx := "RO", identifier := "0000052", name := some "inheres in" }],
    inverse := some has_role.reference }

/-- `has_mature`. -/
def has_mature : TypeDef :=
  { reference := Reference.default "has_mature" (some "has mature miRNA") }

/-- `transcribes_to` (RO:0002511). -/
def transcribes_to : TypeDef :=
  { reference := { pfx := "RO", identifier := "0002511", name := some "transcribed to" } }

/-- `translates_to` (RO:0002513). -/
def translates_to : TypeDef :=
  { reference := Reference.mk "RO" "0002513" (some "ribosomally translates to") }

/-- `gene_product_of` (RO:0002204). -/
def gene_product_of : TypeDef :=
  TypeDef.from_triple "RO" "0002204" (some "gene product of")

/-- `has_gene_product` (RO:0002205); holds over the chain
(transcribes_to, translates_to). -/
def has_gene_product : TypeDef :=
  { reference := { pfx := "RO", identifier := "0002205", name := some "has gene product" },
    inverse := some gene_product_of.reference }

/-- `gene_product_is_a`. -/
def gene_product_is_a : TypeDef :=
  { reference := Reference.default "gene_product_is_a" (some "gene product is a") }

/-- `example_of_usage` (IAO:0000112) — a plain Reference, not a TypeDef. -/
def example_of_usage : Reference :=
  { pfx := "IAO", identifier := "0000112", name := some "example of usage" }

/-- `alternative_term` (IAO:0000118) — a plain Reference. -/
def alternative_term : Reference :=
  { pfx := "IAO", identifier := "0000118", name := some "alternative term" }

/-- `editor_note` (IAO:0000116) — a plain Reference. -/
def editor_note : Reference :=
  { pfx := "IAO", identifier := "0000116", name := some "editor note" }

/-- `is_immediately_transformed_from` (SIO:000658). -/
def is_immediately_transformed_from : TypeDef :=
  TypeDef.from_triple "SIO" "000658" (some "is immediately transformed from")

/-- ChEBI relation: `is_conjugate_base_of`. -/
def is_conjugate_base_of : TypeDef :=
  { reference :=
      Reference.mk "chebi" "is_conjugate_base_of" (some "is conjugate base of") }

/-- ChEBI relation: `is_conjugate_acid_of`. -/
def is_conjugate_acid_of : TypeDef :=
  { reference :=
      Reference.mk "chebi" "is_conjugate_acid_of" (some "is conjugate acid of") }

/-- ChEBI relation: `is_enantiomer_of`. -/
def is_enantiomer_of : TypeDef :=
  { reference :=
      Reference.mk "chebi" "is_enantiomer_of" (some "is enantiomer of") }

/-- ChEBI relation: `is_tautomer_of`. -/
def is_tautomer_of : TypeDef :=
  { reference :=
      Reference.mk "chebi" "is_tautomer_of" (some "is tautomer of") }

/-- ChEBI relation: `has_parent_hydride`. -/
def has_parent_hydride : TypeDef :=
  { reference :=
      Reference.mk "chebi" "has_parent_hydride" (some "has parent hydride") }

/-- ChEBI relation: `is_substituent_group_from`. -/
def is_substituent_group_from : TypeDef :=
  { reference :=
      Reference.mk "chebi" "is_substituent_group_from" (some "is substituent group from") }

/-- ChEBI relation: `has_functional_parent`. -/
def has_functional_parent : TypeDef :=
  { reference :=
      Reference.mk "chebi" "has_functional_parent" (some "has functional parent") }

/-- The TypeDef constants of `typedef.py` in definition order — exactly the
values selected by the module-level comprehension
`{v.pair: v for k, v in locals().items() if isinstance(v, TypeDef)}`
(`locals()` iterates in definition order; the three IAO entries are plain
References and are excluded by the isinstance filter). -/
def builtin_typedefs : List TypeDef :=
  [from_species, species_specific, part_of, has_part, is_a, has_member,
   member_of, superclass_of, develops_from, orthologous, has_role, role_of,
   has_mature, transcribes_to, translates_to, gene_product_of,
   has_gene_product, gene_product_is_a, is_immediately_transformed_from,
   is_conjugate_base_of, is_conjugate_acid_of, is_enantiomer_of,
   is_tautomer_of, has_parent_hydride, is_substituent_group_from,
   has_functional_parent]

/-- The dict built by the module-level comprehension: each built-in
TypeDef keyed by its pair (dict-comprehension semantics are repeated
`d[k] = v` assignments). -/
def init_typedefs : List ((String × String) × TypeDef) :=
  builtin_typedefs.foldl (fun m t => aassign m t.pair t) []

/-- The `default_typedefs` registry after the module-level loop
`for pair, name in load_ro().items(): if pair not in default_typedefs:
default_typedefs[pair] = TypeDef.from_triple(pair[0], pair[1], name)`,
parameterized by the external relation-ontology mapping `ro`
(`load_ro()` lives in `pyobo/resources/ro.py`, outside the embedded
source set). -/
def default_typedefs (ro : List ((String × String) × String)) :
    List ((String × String) × TypeDef) :=
  ro.foldl (fun m pr =>
    if (alookup m pr.1).isSome then m
    else m ++ [(pr.1, TypeDef.from_triple pr.1.1 pr.1.2 (some pr.2))])
    init_typedefs

theorem default_typedefs_fold_preserves
    (l : List ((String × String) × String)) :
    ∀ (m : List ((String × String) × TypeDef)) {k : String × String}
      {v : TypeDef}, alookup m k = some v →
      alookup (l.foldl (fun m pr =>
        if (alookup m pr.1).isSome then m
        else m ++ [(pr.1, TypeDef.from_triple pr.1.1 pr.1.2 (some pr.2))]) m)
        k = some v := by
  induction l with
  | nil => intro m k v h; exact h
  | cons pr l ih =>
    intro m k v h
    simp only [List.foldl_cons]
    apply ih
    by_cases hp : (alookup m pr.1).isSome
    · rw [if_pos hp]; exact h
    · rw [if_neg hp]; exact alookup_append_of_some _ h

set_option maxRecDepth 4000 in
theorem init_typedefs_complete :
    ∀ t ∈ builtin_typedefs, alookup init_typedefs t.pair = some t := by
  decide

/-- C7: `default_typedefs` contains every built-in TypeDef constant keyed
by its pair, entries loaded from the relation ontology never overwrite an
existing key (whatever the external mapping contains), and loading more
relation-ontology entries never removes an entry. -/
theorem claim_C7_default_typedefs_registry
    (ro ro2 : List ((String × String) × String)) :
    (∀ t ∈ builtin_typedefs, alookup (default_typedefs ro) t.pair = some t)
    ∧ (∀ k v, alookup init_typedefs k = some v →
        alookup (default_typedefs ro) k = some v)
    ∧ (∀ k v, alookup (default_typedefs ro) k = some v →
        alookup (default_typedefs (ro ++ ro2)) k = some v) := by
  refine ⟨?_, ?_, ?_⟩
  · intro t ht
    exact default_typedefs_fold_preserves ro init_typedefs
      (init_typedefs_complete t ht)
  · intro k v h
    exact default_typedefs_fold_preserves ro init_typedefs h
  · intro k v h
    unfold default_typedefs at h ⊢
    rw [List.foldl_append]
    exact default_typedefs_fold_preserves ro2 _ h

/-- Closed instance of C7: with a one-entry relation-ontology mapping,
the registry still maps `part_of`'s pair to the built-in `part_of`. -/
theorem claim_C7_witness :
    alookup (default_typedefs [(("a", "b"), "ab rel")]) part_of.pair
      = some part_of :=
  (claim_C7_default_typedefs_registry [(("a", "b"), "ab rel")] []).1 part_of
    (by decide)

/-- C3 counterexample: the relation-hint resolution does not resolve the
four shapes to one canonical pair — the `has_gene_product` TypeDef
resolves to its verbatim upper-case pair while the equivalent curie string
resolves to the lower-cased pair. -/
theorem claim_C3_counterexample :
    get_reference_tuple (fun s => s == "ro")
        (RelationHint.typedef has_gene_product) = Except.ok ("RO", "0002205")
    ∧ get_reference_tuple (fun s => s == "ro")
        (RelationHint.curie "RO:0002205") = Except.ok ("ro", "0002205")
    ∧ (("RO", "0002205") : String × String) ≠ ("ro", "0002205") :=
  ⟨rfl, rfl, by decide⟩

/-- C3 (amended): `get_reference_tuple` accepts all four shapes; a
`TypeDef` or `Reference` yields its own (prefix, identifier) verbatim, a
raw pair is returned unchanged with no normalization and no typedef
lookup, and a curie string is resolved through `normalize_curie` (which
lower-cases the prefix), so shapes denoting the same relation may yield
differently-cased pairs; the only failing shape is a string that is not a
well-formed curie with a known prefix, and that failure is the surfaced
curie-parse error. -/
theorem claim_C3_amended_get_reference_tuple (reg : String → Bool)
    (r : Reference) (t : TypeDef) (pr : String × String) (s : String) :
    get_reference_tuple reg (RelationHint.ref r)
        = Except.ok (r.pfx, r.identifier)
    ∧ get_reference_tuple reg (RelationHint.typedef t)
        = Except.ok (t.pfx, t.identifier)
    ∧ get_reference_tuple reg (RelationHint.pair pr) = Except.ok pr
    ∧ get_reference_tuple reg (RelationHint.curie s) = normalize_curie reg s
    ∧ (∀ e, get_reference_tuple reg (RelationHint.curie s) = Except.error e →
        ∃ m, e = PyError.parseError m) := by
  refine ⟨rfl, rfl, rfl, rfl, ?_⟩
  intro e he
  rw [show get_reference_tuple reg (RelationHint.curie s)
      = normalize_curie reg s from rfl] at he
  unfold normalize_curie at he
  cases hsp : split_first ':' s.data with
  | none =>
    rw [hsp] at he
    exact ⟨s, (Except.error.injEq _ _).mp he |>.symm⟩
  | some q =>
    rw [hsp] at he
    by_cases hreg : reg (str_lower (String.mk q.1))
    · simp [hreg] at he
    · simp [hreg] at he
      exact ⟨s, he.symm⟩

/-- Closed instance of the amended C3: a raw pair passes through verbatim
and an unknown-prefix curie string fails with the curie-parse error. -/
theorem claim_C3_witness :
    get_reference_tuple (fun s => s == "ro")
        (RelationHint.pair ("BFO", "0000050")) = Except.ok ("BFO", "0000050") :=
  (claim_C3_amended_get_reference_tuple (fun s => s == "ro")
    (Reference.auto "x" "y") has_gene_product ("BFO", "0000050") "bad").2.2.1

/-! ## The Term model (`pyobo/struct/struct.py`, spec section 3/4.2) -/

/-- Modelled from the spec: `SynonymTypeDef` (section 3). -/
structure SynonymTypeDef where
  id : String
  name : String
  deriving DecidableEq, Repr

/-- Modelled from the spec: the synonym specificity enumeration
(section 3), defaulting to EXACT. -/
inductive SynonymSpecificity where
  | EXACT
  | NARROW
  | BROAD
  | RELATED
  deriving DecidableEq, Repr

/-- Modelled from the spec: `Synonym` (section 3). -/
structure Synonym where
  name : String
  type : Option SynonymTypeDef := none
  specificity : SynonymSpecificity := SynonymSpecificity.EXACT
  provenance : List Reference := []
  deriving DecidableEq, Repr

/-- Modelled from the spec: `Term` (section 3) from the module
`pyobo/struct/struct.py`, which is not part of the embedded source set.
`relationships` is the mapping from TypeDef to ordered target sequence
(a `defaultdict(list)` keyed by the TypeDef dataclass). -/
structure Term where
  reference : Reference
  definition : Option String := none
  synonyms : List Synonym := []
  parents : List Reference := []
  relationships : List (TypeDef × List Reference) := []
  xrefs : List Reference := []
  provenance : List Reference := []
  properties : List (String × String) := []
  deriving DecidableEq, Repr

/-- Modelled from the spec: `Term.from_triple(prefix, identifier, name)`
(the constructor used by the adapters). -/
def Term.from_triple (pfx identifier : String)
    (name : Option String := none) : Term :=
  { reference := { pfx := pfx, identifier := identifier, name := name } }

/-- The `Union[str, Synonym]` argument of `append_synonym`. -/
inductive SynonymHint where
  | str (s : String)
  | syn (s : Synonym)

/-- Modelled from the spec: `append_synonym` (section 4.2) — append-only,
wrapping a bare string in a `Synonym`. -/
def Term.append_synonym (t : Term) (h : SynonymHint) : Term :=
  match h with
  | SynonymHint.str s => { t with synonyms := t.synonyms ++ [{ name := s }] }
  | SynonymHint.syn s => { t with synonyms := t.synonyms ++ [s] }

/-- Append a target under a typedef key in the relationships mapping:
`self.relationships[typedef].append(reference)` on a `defaultdict(list)`
(dataclass equality on the TypeDef key). -/
def rel_append : List (TypeDef × List Reference) → TypeDef → Reference →
    List (TypeDef × List Reference)
  | [], td, r => [(td, [r])]
  | (k, vs) :: rest, td, r =>
    if k = td then (k, vs ++ [r]) :: rest
    else (k, vs) :: rel_append rest td r

/-- Modelled from the spec: `append_relationship(typedef, reference)`
(section 4.2) — appends the target under the typedef, preserving
insertion order, touching only the receiving term. -/
def Term.append_relationship (t : Term) (td : TypeDef) (r : Reference) :
    Term :=
  { t with relationships := rel_append t.relationships td r }

/-- Modelled from the spec: `set_species(identifier, name)` (section 4.2)
— a wrapper over `append_relationship` with the fixed `from_species`
typedef; the taxonomy prefix of the constructed reference is not fixed by
the spec. -/
def Term.set_species (t : Term) (identifier : String)
    (name : Option String := none) : Term :=
  t.append_relationship from_species (Reference.mk "taxonomy" identifier name)

/-- The ordered targets recorded under a typedef (empty when the typedef
has no entry yet). -/
def Term.relationship_targets (t : Term) (td : TypeDef) : List Reference :=
  (alookup t.relationships td).getD []

theorem rel_append_lookup_same (m : List (TypeDef × List Reference))
    (td : TypeDef) (r : Reference) :
    alookup (rel_append m td r) td = some ((alookup m td).getD [] ++ [r]) := by
  induction m with
  | nil => simp [rel_append, alookup]
  | cons kv rest ih =>
    obtain ⟨k, vs⟩ := kv
    by_cases hk : k = td
    · subst hk
      simp [rel_append, alookup]
    · simp [rel_append, alookup, hk, ih]

theorem rel_append_lookup_other (m : List (TypeDef × List Reference))
    (td td2 : TypeDef) (r : Reference) (h : td ≠ td2) :
    alookup (rel_append m td r) td2 = alookup m td2 := by
  induction m with
  | nil => simp [rel_append, alookup, h]
  | cons kv rest ih =>
    obtain ⟨k, vs⟩ := kv
    by_cases hk : k = td
    · subst hk
      simp [rel_append, alookup, h]
    · simp [rel_append, alookup, hk, ih]

theorem append_relationship_targets_same (t : Term) (td : TypeDef)
    (r : Reference) :
    (t.append_relationship td r).relationship_targets td
      = t.relationship_targets td ++ [r] := by
  unfold Term.relationship_targets Term.append_relationship
  rw [rel_append_lookup_same]
  rfl

theorem append_relationship_targets_other (t : Term) (td td2 : TypeDef)
    (r : Reference) (h : td ≠ td2) :
    (t.append_relationship td r).relationship_targets td2
      = t.relationship_targets td2 := by
  unfold Term.relationship_targets Term.append_relationship
  rw [rel_append_lookup_other _ _ _ _ h]

theorem append_synonym_relationships (t : Term) (h : SynonymHint) :
    (t.append_synonym h).relationships = t.relationships := by
  cases h <;> rfl

/-! ## `src/pyobo/sources/dictybase_gene.py` -/

/-- Python's `s.split(sep)` over character lists (every occurrence of the
separator splits; empty pieces are kept, as in Python). -/
def splitChar (sep : Char) (l : List Char) : List (List Char) :=
  l.foldr (fun c acc =>
    match acc with
    | [] => [[]]
    | a :: rest => if c = sep then [] :: a :: rest else (c :: a) :: rest)
    [[]]

/-- Python's `s.split(sep)` producing strings. -/
def pysplit (s : String) (sep : Char) : List String :=
  (splitChar sep s.data).map String.mk

/-- Python's `s.strip()` over character lists. -/
def pystrip (s : String) : String :=
  String.mk
    (((s.data.dropWhile Char.isWhitespace).reverse.dropWhile
      Char.isWhitespace).reverse)

/-- One row of the dictyBase `gene_info.tsv` frame, as unpacked by
`for identifier, name, synonyms, products in tqdm(terms.values)`.  The
synonyms and products cells may be NaN (`none`); the identifier and name
columns are taken as present strings. -/
structure DictyRow where
  identifier : String
  name : String
  synonyms : Option String
  products : Option String

/-- The UniProt filter of the row loop (`dictybase_gene.py` lines 67-70):
the loop `continue`s unless the mapped value is non-NaN, non-empty and in
the literal set {"unknown", "pseudogene"}; only then is a
`has_gene_product` edge appended. -/
def dicty_uniprot_pick (u : Option String) : Option Reference :=
  match u with
  | none => none
  | some uid =>
    if uid.isEmpty then none
    else if uid = "unknown" ∨ uid = "pseudogene" then
      some (Reference.auto "uniprot" uid)
    else none

/-- The products branch of the row loop: `if products and pd.notna(products)
and products != "unknown": for synonym in products.split(","):
term.append_synonym(synonym.strip())` (a bare string hint). -/
def dicty_products_step (t : Term) (products : Option String) : Term :=
  match products with
  | some s =>
    if ¬s.isEmpty ∧ s ≠ "unknown" then
      (pysplit s ',').foldl
        (fun (t : Term) syn =>
          t.append_synonym (SynonymHint.str (pystrip syn))) t
    else t
  | none => t

/-- The synonyms branch of the row loop: `if synonyms and
pd.notna(synonyms): for synonym in synonyms.split(","):
term.append_synonym(Synonym(synonym.strip()))`. -/
def dicty_synonyms_step (t : Term) (synonyms : Option String) : Term :=
  match synonyms with
  | some s =>
    if ¬s.isEmpty then
      (pysplit s ',').foldl
        (fun (t : Term) syn =>
          t.append_synonym (SynonymHint.syn { name := pystrip syn })) t
    else t
  | none => t

/-- The body of the row loop of `get_terms` in `dictybase_gene.py`: build
the term from the triple, append the product synonyms (unless the cell is
NaN, empty or the literal "unknown"), append the synonym-column synonyms,
walk the mapped UniProt values appending a `has_gene_product` edge exactly
for the values the filter keeps, and set the species.  `uniprot_mappings`
is the `multisetdict` over the mapping file (built by `pyobo/utils/io.py`,
outside the embedded source set), with NaN values as `none`. -/
def dictybase_mk_term (uniprot_mappings : List (String × List (Option String)))
    (row : DictyRow) : Term :=
  let term := Term.from_triple "dictybase.gene" row.identifier (some row.name)
  let term := dicty_products_step term row.products
  let term := dicty_synonyms_step term row.synonyms
  let term := ((alookup uniprot_mappings row.identifier).getD []).foldl
    (fun (t : Term) u =>
      match dicty_uniprot_pick u with
      | none => t
      | some r => t.append_relationship has_gene_product r) term
  term.set_species "44689" (some "Dictyostelium discoideum")

/-- `get_terms` of `dictybase_gene.py`, one produced term per row. -/
def dictybase_get_terms (uniprot_mappings : List (String × List (Option String)))
    (rows : List DictyRow) : List Term :=
  rows.map (dictybase_mk_term uniprot_mappings)

theorem dicty_uniprot_fold_targets (us : List (Option String)) :
    ∀ t : Term,
      Term.relationship_targets
        (us.foldl (fun (t : Term) u =>
          match dicty_uniprot_pick u with
          | none => t
          | some r => t.append_relationship has_gene_product r) t)
        has_gene_product
      = t.relationship_targets has_gene_product
        ++ us.filterMap dicty_uniprot_pick := by
  induction us with
  | nil => intro t; simp
  | cons u us ih =>
    intro t
    cases hp : dicty_uniprot_pick u with
    | none => simp [List.foldl_cons, hp, ih]
    | some r =>
      simp only [List.foldl_cons, hp, List.filterMap_cons]
      rw [ih, append_relationship_targets_same]
      simp

theorem synfold_relationships (l : List String) (f : Term → String → Term)
    (hf : ∀ t s, (f t s).relationships = t.relationships) :
    ∀ t : Term, (l.foldl f t).relationships = t.relationships := by
  induction l with
  | nil => intro t; rfl
  | cons a l ih => intro t; rw [List.foldl_cons, ih, hf]

theorem dictybase_targets (ups : List (String × List (Option String)))
    (row : DictyRow) :
    (dictybase_mk_term ups row).relationship_targets has_gene_product
      = ((alookup ups row.identifier).getD []).filterMap dicty_uniprot_pick := by
  unfold dictybase_mk_term
  have hfs : from_species ≠ has_gene_product := by decide
  rw [show ∀ t : Term, (t.set_species "44689"
      (some "Dictyostelium discoideum")).relationship_targets has_gene_product
      = t.relationship_targets has_gene_product from fun t =>
        append_relationship_targets_other t from_species has_gene_product _ hfs]
  rw [dicty_uniprot_fold_targets]
  have h1 : ∀ (t : Term) (os : Option String),
      (dicty_products_step t os).relationships = t.relationships := by
    intro t os
    cases os with
    | none => rfl
    | some s =>
      by_cases hc : ¬s.isEmpty ∧ s ≠ "unknown"
      · rw [dicty_products_step, if_pos hc]
        exact synfold_relationships _ _
          (fun t s => append_synonym_relationships t _) t
      · rw [dicty_products_step, if_neg hc]
  have h2 : ∀ (t : Term) (os : Option String),
      (dicty_synonyms_step t os).relationships = t.relationships := by
    intro t os
    cases os with
    | none => rfl
    | some s =>
      by_cases hc : ¬s.isEmpty
      · rw [dicty_synonyms_step, if_pos hc]
        exact synfold_relationships _ _
          (fun t s => append_synonym_relationships t _) t
      · rw [dicty_synonyms_step, if_neg hc]
  unfold Term.relationship_targets
  rw [h2, h1]
  rw [show (Term.from_triple "dictybase.gene" row.identifier
      (some row.name)).relationships = [] from rfl]
  rfl

/-- C10: for every input row of the dictyBase gene adapter, a
`has_gene_product` edge is appended for a mapped UniProt value only when
that value is the literal string "unknown" or "pseudogene"; every other
non-empty mapped value is skipped and yields no edge. -/
theorem claim_C10_dictybase_uniprot_filter
    (ups : List (String × List (Option String))) (row : DictyRow) :
    (∀ r ∈ (dictybase_mk_term ups row).relationship_targets has_gene_product,
      r.pfx = "uniprot"
      ∧ (r.identifier = "unknown" ∨ r.identifier = "pseudogene"))
    ∧ (∀ u, some u ∈ (alookup ups row.identifier).getD [] →
        u ≠ "unknown" → u ≠ "pseudogene" →
        ∀ r ∈ (dictybase_mk_term ups row).relationship_targets has_gene_product,
          r.identifier ≠ u) := by
  rw [dictybase_targets]
  constructor
  · intro r hr
    obtain ⟨u, hu, hp⟩ := List.mem_filterMap.mp hr
    cases u with
    | none => simp [dicty_uniprot_pick] at hp
    | some uid =>
      simp only [dicty_uniprot_pick] at hp
      by_cases he : uid.isEmpty
      · simp [he] at hp
      · by_cases hk : uid = "unknown" ∨ uid = "pseudogene"
        · rw [if_neg (by simpa using he), if_pos hk] at hp
          cases hp
          exact ⟨rfl, hk⟩
        · rw [if_neg (by simpa using he), if_neg hk] at hp
          cases hp
  · intro u hu hu1 hu2 r hr
    obtain ⟨u2, hu2m, hp⟩ := List.mem_filterMap.mp hr
    cases u2 with
    | none => simp [dicty_uniprot_pick] at hp
    | some uid =>
      simp only [dicty_uniprot_pick] at hp
      by_cases he : uid.isEmpty
      · simp [he] at hp
      · by_cases hk : uid = "unknown" ∨ uid = "pseudogene"
        · rw [if_neg (by simpa using he), if_pos hk] at hp
          cases hp
          intro hid
          rw [show (Reference.auto "uniprot" uid).identifier = uid from rfl]
            at hid
          subst hid
          rcases hk with h | h
          · exact hu1 h
          · exact hu2 h
        · rw [if_neg (by simpa using he), if_neg hk] at hp
          cases hp

/-- Closed instance of C10: with mapped values "unknown", a real accession
"P12345", NaN and the empty string, the produced edge set is exactly the
"unknown" edge, and "P12345" yields no edge. -/
theorem claim_C10_witness :
    (Reference.auto "uniprot" "unknown").pfx = "uniprot"
    ∧ ((Reference.auto "uniprot" "unknown").identifier = "unknown"
        ∨ (Reference.auto "uniprot" "unknown").identifier = "pseudogene") :=
  (claim_C10_dictybase_uniprot_filter
      [("g1", [some "unknown", some "P12345", none, some ""])]
      { identifier := "g1", name := "geneA", synonyms := none,
        products := none }).1
    (Reference.auto "uniprot" "unknown") (by decide)

/-! ## `src/pyobo/sources/mesh.py` -/

theorem alookup_mem {κ α : Type} [DecidableEq κ] :
    ∀ {m : List (κ × α)} {k : κ} {v : α},
      alookup m k = some v → (k, v) ∈ m := by
  intro m
  induction m with
  | nil => intro k v h; simp [alookup] at h
  | cons kv rest ih =>
    intro k v h
    obtain ⟨k1, v1⟩ := kv
    by_cases hk : k1 = k
    · subst hk
      simp [alookup] at h
      subst h
      exact List.mem_cons_self _ _
    · simp [alookup, hk] at h
      exact List.mem_cons_of_mem _ (ih h)

theorem aassign_forall {κ α : Type} [DecidableEq κ] {P : κ × α → Prop}
    {m : List (κ × α)} {k : κ} {v : α}
    (hm : ∀ kv ∈ m, P kv) (hv : P (k, v)) :
    ∀ kv ∈ aassign m k v, P kv := by
  intro kv hkv
  unfold aassign at hkv
  by_cases hp : (alookup m k).isSome
  · rw [if_pos hp] at hkv
    obtain ⟨kv0, hkv0, heq⟩ := List.mem_map.mp hkv
    by_cases hk : kv0.1 = k
    · rw [if_pos hk] at heq
      subst heq
      exact hv
    · rw [if_neg hk] at heq
      subst heq
      exact hm kv0 hkv0
  · rw [if_neg hp] at hkv
    rcases List.mem_append.mp hkv with h | h
    · exact hm kv h
    · simp at h
      subst h
      exact hv

/-- Python's `s.replace("\\n", "\n")` on character lists: every
backslash-n pair becomes a newline. -/
def replace_bn : List Char → List Char
  | [] => []
  | [c] => [c]
  | c1 :: c2 :: rest =>
    if c1 = Char.ofNat 92 ∧ c2 = Char.ofNat 110 then
      Char.ofNat 10 :: replace_bn rest
    else c1 :: replace_bn (c2 :: rest)

/-- A parsed MeSH term record (`get_term_record`): only the name is used
by term construction. -/
structure MeshTermRecord where
  name : String
  deriving DecidableEq, Repr

/-- A parsed MeSH concept record (`get_concept_record`): concept name,
optional scope note and term records (the other parsed fields play no role
in `get_terms`). -/
structure MeshConceptRecord where
  name : String
  scopeNote : Option String := none
  terms : List MeshTermRecord := []
  deriving DecidableEq, Repr

/-- A parsed MeSH descriptor or supplemental record as consumed by
`get_terms`: identifier, name, concept records and the parent identifiers
computed by `get_descriptor_records` (empty for supplemental records). -/
structure MeshEntry where
  identifier : String
  name : String
  concepts : List MeshConceptRecord := []
  parents : List String := []
  deriving DecidableEq, Repr

/-- `get_scope_note(term)` from `mesh.py`: the scope note of the first
concept carrying one, with escaped newlines replaced and surrounding
whitespace stripped. -/
def get_scope_note (e : MeshEntry) : Option String :=
  e.concepts.findSome? (fun c =>
    c.scopeNote.map (fun s => pystrip (String.mk (replace_bn s.data))))

/-- The synonym strings gathered over an entry's concepts and their term
records.  The source collects them in a Python `set`, whose iteration
order is unspecified; the embedding fixes the canonical first-occurrence
order. -/
def mesh_synonym_strings (e : MeshEntry) : List String :=
  ((e.concepts.map (fun c => c.name :: c.terms.map (fun t => t.name))).flatten).eraseDups

/-- The `Term` built for one entry in the first loop of `get_terms`:
`Term(definition=..., reference=Reference(prefix="mesh", ...),
synonyms=[Synonym(s) for s in synonyms if s != name])`. -/
def mesh_term_of (e : MeshEntry) : Term :=
  { definition := some (pystrip ((get_scope_note e).getD "")),
    reference := Reference.mk "mesh" e.identifier (some e.name),
    synonyms := ((mesh_synonym_strings e).filter (fun s => s ≠ e.name)).map
      (fun s => { name := s }) }

/-- The first loop of `get_terms`: `mesh_id_to_term[identifier] = Term(...)`
over the chained descriptor and supplemental records (a later record with
the same identifier overwrites the earlier term). -/
def mesh_pass1 (entries : List MeshEntry) : List (String × Term) :=
  entries.foldl (fun m e => aassign m e.identifier (mesh_term_of e)) []

/-- The parent-reference list of the second loop:
`[mesh_id_to_term[pid].reference for pid in entry["parents"]]`, raising
`KeyError` on a missing parent identifier. -/
def mesh_parent_refs (m : List (String × Term)) :
    List String → Except PyError (List Reference)
  | [] => Except.ok []
  | pid :: rest =>
    match alookup m pid with
    | none => Except.error (PyError.keyError pid)
    | some t =>
      match mesh_parent_refs m rest with
      | Except.ok rs => Except.ok (t.reference :: rs)
      | Except.error e => Except.error e

/-- The second loop of `get_terms`:
`mesh_id_to_term[entry["identifier"]].parents = [...]` for each
descriptor, raising `KeyError` when the identifier or a parent identifier
is not in the dict. -/
def mesh_pass2 : List MeshEntry → List (String × Term) →
    Except PyError (List (String × Term))
  | [], m => Except.ok m
  | e :: rest, m =>
    match mesh_parent_refs m e.parents with
    | Except.error err => Except.error err
    | Except.ok prefs =>
      match alookup m e.identifier with
      | none => Except.error (PyError.keyError e.identifier)
      | some t =>
          mesh_pass2 rest (aassign m e.identifier { t with parents := prefs })

/-- `get_terms(version)` of `mesh.py` after the collaborator downloads:
build the id-to-term dict over the chained records, assign the parent
references for each descriptor, and return the dict values. -/
def mesh_get_terms (descriptors supplemental_records : List MeshEntry) :
    Except PyError (List Term) :=
  match mesh_pass2 descriptors
      (mesh_pass1 (descriptors ++ supplemental_records)) with
  | Except.error e => Except.error e
  | Except.ok m => Except.ok (m.map (fun kv => kv.2))

theorem mesh_pass1_go (entries : List MeshEntry) :
    ∀ m : List (String × Term),
      (akeys m).Nodup →
      (∀ kv ∈ m, (kv.2 : Term).reference.identifier = kv.1
        ∧ kv.2.reference.pfx = "mesh") →
      (akeys (entries.foldl
        (fun m e => aassign m e.identifier (mesh_term_of e)) m)).Nodup
      ∧ (∀ kv ∈ entries.foldl
          (fun m e => aassign m e.identifier (mesh_term_of e)) m,
          (kv.2 : Term).reference.identifier = kv.1
          ∧ kv.2.reference.pfx = "mesh")
      ∧ (∀ k ∈ akeys m, k ∈ akeys (entries.foldl
          (fun m e => aassign m e.identifier (mesh_term_of e)) m))
      ∧ (∀ e ∈ entries, e.identifier ∈ akeys (entries.foldl
          (fun m e => aassign m e.identifier (mesh_term_of e)) m)) := by
  induction entries with
  | nil =>
    intro m h1 h2
    exact ⟨h1, h2, fun k hk => hk, by simp⟩
  | cons e rest ih =>
    intro m h1 h2
    simp only [List.foldl_cons]
    have h1a := nodup_akeys_aassign e.identifier (mesh_term_of e) h1
    have h2a : ∀ kv ∈ aassign m e.identifier (mesh_term_of e),
        (kv.2 : Term).reference.identifier = kv.1
        ∧ kv.2.reference.pfx = "mesh" :=
      aassign_forall h2 ⟨rfl, rfl⟩
    obtain ⟨g1, g2, g3, g4⟩ := ih (aassign m e.identifier (mesh_term_of e)) h1a h2a
    refine ⟨g1, g2, ?_, ?_⟩
    · intro k hk
      exact g3 k (mem_akeys_aassign_of_mem _ _ hk)
    · intro e2 he2
      rcases List.mem_cons.mp he2 with rfl | he2
      · exact g3 _ (mem_akeys_aassign m e2.identifier (mesh_term_of e2))
      · exact g4 e2 he2

theorem mesh_pass2_spec :
    ∀ (ds : List MeshEntry) (m m' : List (String × Term)),
      mesh_pass2 ds m = Except.ok m' →
      akeys m' = akeys m
      ∧ ((∀ kv ∈ m, (kv.2 : Term).reference.identifier = kv.1
            ∧ kv.2.reference.pfx = "mesh") →
          ∀ kv ∈ m', (kv.2 : Term).reference.identifier = kv.1
            ∧ kv.2.reference.pfx = "mesh")
  | [], m, m', h => by
    injection h with h1
    subst h1
    exact ⟨rfl, fun hm => hm⟩
  | e :: rest, m, m', h => by
    unfold mesh_pass2 at h
    cases hpr : mesh_parent_refs m e.parents with
    | error err => rw [hpr] at h; cases h
    | ok prefs =>
      rw [hpr] at h
      cases hl : alookup m e.identifier with
      | none => rw [hl] at h; cases h
      | some t =>
        rw [hl] at h
        have ih := mesh_pass2_spec rest _ m' h
        have hkeys : akeys (aassign m e.identifier { t with parents := prefs })
            = akeys m :=
          akeys_aassign_of_present _ (by rw [hl]; rfl)
        refine ⟨by rw [ih.1, hkeys], ?_⟩
        intro hm
        apply ih.2
        apply aassign_forall hm
        have ht := hm (e.identifier, t) (alookup_mem hl)
        exact ⟨ht.1, ht.2⟩

theorem values_pairwise (m : List (String × Term))
    (hnd : (akeys m).Nodup)
    (hlink : ∀ kv ∈ m, (kv.2 : Term).reference.identifier = kv.1) :
    List.Pairwise (fun a b : Term => a.reference.pair ≠ b.reference.pair)
      (m.map (fun kv => kv.2)) := by
  rw [List.pairwise_map]
  have hk : m.Pairwise (fun a b => a.1 ≠ b.1) := by
    have h2 : (m.map (fun kv => kv.1)).Pairwise (fun a b => a ≠ b) := hnd
    rw [List.pairwise_map] at h2
    exact h2
  refine hk.imp_of_mem ?_
  intro a b ha hb hne hpair
  apply hne
  have h1 := hlink a ha
  have h2 := hlink b hb
  have : a.2.reference.identifier = b.2.reference.identifier := by
    have := congrArg Prod.snd hpair
    simpa [Reference.pair] using this
  rw [h1, h2] at this
  exact this

theorem filter_key_length_one :
    ∀ (m : List (String × Term)), (akeys m).Nodup → ∀ k ∈ akeys m,
      (m.filter (fun kv => kv.1 == k)).length = 1 := by
  intro m
  induction m with
  | nil => intro _ k hk; simp [akeys] at hk
  | cons kv rest ih =>
    intro hnd k hk
    have hmap : akeys (kv :: rest) = kv.1 :: akeys rest := by
      simp [akeys]
    rw [hmap] at hnd hk
    have hhead : kv.1 ∉ akeys rest := (List.nodup_cons.mp hnd).1
    have hnd2 : (akeys rest).Nodup := (List.nodup_cons.mp hnd).2
    by_cases hke : kv.1 = k
    · subst hke
      have hrest : rest.filter (fun kv2 => kv2.1 == kv.1) = [] := by
        rw [List.filter_eq_nil_iff]
        intro kv2 hkv2
        simp only [beq_iff_eq]
        intro hcon
        apply hhead
        rw [← hcon]
        exact List.mem_map_of_mem (fun x => x.1) hkv2
      simp [List.filter_cons, hrest]
    · have hk2 : k ∈ akeys rest := by
        rcases List.mem_cons.mp hk with h | h
        · exact absurd h.symm hke
        · exact h
      have hlen := ih hnd2 k hk2
      simp only [List.filter_cons]
      rw [if_neg (by simpa using hke)]
      exact hlen

theorem values_filter_length_one (m : List (String × Term))
    (hnd : (akeys m).Nodup)
    (hlink : ∀ kv ∈ m, (kv.2 : Term).reference.identifier = kv.1)
    (k : String) (hk : k ∈ akeys m) :
    ((m.map (fun kv => kv.2)).filter
      (fun t => t.reference.identifier == k)).length = 1 := by
  rw [List.filter_map]
  rw [List.length_map]
  rw [List.filter_congr (by
    intro kv hkv
    simp only [Function.comp]
    rw [hlink kv hkv])]
  exact filter_key_length_one m hnd k hk

/-- C8: when the MeSH adapter's `get_terms` completes, no two produced
Terms share a `(prefix, identifier)` pair, and every identifier of the
chained descriptor and supplemental records has exactly one Term in the
returned collection. -/
theorem claim_C8_mesh_unique_terms (descriptors supplementals : List MeshEntry)
    (ts : List Term)
    (h : mesh_get_terms descriptors supplementals = Except.ok ts) :
    List.Pairwise (fun a b : Term => a.reference.pair ≠ b.reference.pair) ts
    ∧ ∀ e ∈ descriptors ++ supplementals,
        (ts.filter (fun t => t.reference.identifier == e.identifier)).length
          = 1 := by
  unfold mesh_get_terms at h
  cases hp2 : mesh_pass2 descriptors
      (mesh_pass1 (descriptors ++ supplementals)) with
  | error err => rw [hp2] at h; cases h
  | ok m2 =>
    rw [hp2] at h
    injection h with hts
    subst hts
    obtain ⟨hnd, hlink, _, hmem⟩ :=
      mesh_pass1_go (descriptors ++ supplementals) [] (by simp [akeys])
        (by simp)
    have hsp := mesh_pass2_spec descriptors
      (mesh_pass1 (descriptors ++ supplementals)) m2 hp2
    have hnd2 : (akeys m2).Nodup := by
      rw [hsp.1]
      exact hnd
    have hlink2 := hsp.2 hlink
    constructor
    · exact values_pairwise m2 hnd2 (fun kv hkv => (hlink2 kv hkv).1)
    · intro e he
      apply values_filter_length_one m2 hnd2 (fun kv hkv => (hlink2 kv hkv).1)
      rw [hsp.1]
      exact hmem e he

/-- Demo MeSH descriptors: `D2` is a tree child of `D1`. -/
def mesh_demo_descriptors : List MeshEntry :=
  [MeshEntry.mk "D1" "Alpha"
    [MeshConceptRecord.mk "Alpha" (some " a note ")
      [MeshTermRecord.mk "Alpha variant"]] [],
   MeshEntry.mk "D2" "Beta" [] ["D1"]]

/-- Demo MeSH supplemental records. -/
def mesh_demo_supplementals : List MeshEntry :=
  [MeshEntry.mk "C1" "Gamma" [] []]

/-- Closed instance of C8 on the demo records: the produced collection has
pairwise-distinct pairs and exactly one term carries identifier "C1". -/
theorem claim_C8_witness :
    List.Pairwise (fun a b : Term => a.reference.pair ≠ b.reference.pair)
      ((mesh_get_terms mesh_demo_descriptors
        mesh_demo_supplementals).toOption.getD [])
    ∧ (((mesh_get_terms mesh_demo_descriptors
          mesh_demo_supplementals).toOption.getD []).filter
        (fun t => t.reference.identifier == "C1")).length = 1 := by
  have h := claim_C8_mesh_unique_terms mesh_demo_descriptors
    mesh_demo_supplementals
    ((mesh_get_terms mesh_demo_descriptors
      mesh_demo_supplementals).toOption.getD []) (by rfl)
  refine ⟨h.1, ?_⟩
  exact h.2 (MeshEntry.mk "C1" "Gamma" [] []) (by decide)

end PyObo
